import Mathlib

/-!
Shallow embedding of `addons/io_scene_gltf/material/block.py`, the 2D
bounding-box layout engine ("Block") used to arrange shader nodes.

Conventions of the embedding:
* `mathutils.Vector((x, y))` becomes `Vec := ℚ × ℚ` (exact rational
  arithmetic in place of Python floats); the y axis increases upward,
  exactly as in the source.
* A Blender shader node (the leaf case of the dispatch
  `type(block) == Block`) becomes the record `Node`: a `location`,
  a `width`, a `height`, a `label`, a `shrink` flag and a `parent`
  reference (modelled as `Option Nat`: the host tree hands out numeric
  identifiers for frames).
* The Python class `Block` becomes the `Element.block` constructor of
  the inductive `Element`; a shader node is `Element.node`.  Mutation is
  modelled functionally: each operation returns the updated element.
* Python `for` loops over `self.children` become mutual recursion on
  the child list.
-/

abbrev Vec := ℚ × ℚ

/-- A Blender shader node as the Block code sees it: `location`,
`width`, `height`, plus the `label`, `shrink` and `parent` attributes
touched by `framify`.  `parent = some i` means the node is parented to
the frame with host identifier `i`. -/
structure Node where
  location : Vec
  width : ℚ
  height : ℚ
  label : String := ""
  shrink : Bool := true
  parent : Option Nat := none
  deriving DecidableEq, Repr

/-- An element handled by the dispatch functions of block.py: either a
shader node or a Block (children list plus the cached bounding-box
corners `top_left` and `bottom_right`). -/
inductive Element where
  | node (n : Node)
  | block (children : List Element) (top_left bottom_right : Vec)

/-- The test `type(block) == Block` from the source dispatch functions. -/
def isBlock : Element → Bool
  | .node _ => false
  | .block _ _ _ => true

/-- Children of a Block (`self.children`); a node has none. -/
def children : Element → List Element
  | .node _ => []
  | .block cs _ _ => cs

/-- Source `top_left(block)`: the cached corner for a Block, the
location for a node. -/
def top_left : Element → Vec
  | .node n => n.location
  | .block _ tl _ => tl

/-- Source `bottom_right(block)`: the cached corner for a Block, and
`location + Vector((width, -height))` for a node (y grows upward). -/
def bottom_right : Element → Vec
  | .node n => n.location + (n.width, -n.height)
  | .block _ _ br => br

/-- Source `width(block) = bottom_right.x - top_left.x`. -/
def width (e : Element) : ℚ := (bottom_right e).1 - (top_left e).1

/-- Source `height(block) = top_left.y - bottom_right.y`. -/
def height (e : Element) : ℚ := (top_left e).2 - (bottom_right e).2

mutual

/-- Source `move_by` / `Block.move_by`: the location of a node is
translated directly; a Block translates every child recursively and
then shifts both cached corners by the same delta. -/
def move_by : Element → Vec → Element
  | .node n, delta => .node { n with location := n.location + delta }
  | .block cs tl br, delta =>
      .block (moveChildrenBy cs delta) (tl + delta) (br + delta)

/-- The `for child in self.children: move_by(child, delta)` loop of
`Block.move_by`. -/
def moveChildrenBy : List Element → Vec → List Element
  | [], _ => []
  | c :: cs, delta => move_by c delta :: moveChildrenBy cs delta

end

/-- Source `move_to(block, pos)`: `delta = pos - top_left(block)`, then
`move_by`. -/
def move_to (e : Element) (pos : Vec) : Element := move_by e (pos - top_left e)

/-- Source `center_at_origin(block)`. -/
def center_at_origin (e : Element) : Element :=
  move_to e (-(width e) / 2, height e / 2)

/-- Source `Block.add`: append the child to `self.children`; if it is
the first child, initialize the cached corners from the child box,
otherwise widen the cached box by min/max against the child box.
(`Block.add` is only ever invoked on a Block; the node case returns the
element unchanged.) -/
def Block.add : Element → Element → Element
  | .block cs tl br, child =>
      let cs2 := cs ++ [child]
      if cs2.length = 1 then
        .block cs2 (top_left child) (bottom_right child)
      else
        .block cs2
          (min tl.1 (top_left child).1, max tl.2 (top_left child).2)
          (max br.1 (bottom_right child).1, min br.2 (bottom_right child).2)
  | .node n, _ => .node n

/-- Source `Block.__init__(*blocks)`: start with no children and both
cached corners at `(0, 0)`, then `add` each argument in order. -/
def Block.init (blocks : List Element) : Element :=
  blocks.foldl Block.add (.block [] (0, 0) (0, 0))

/-- Python `max(iterable, default=0)` as used for `max_height` and
`max_width` in the alignment functions. -/
def max_default : List ℚ → ℚ
  | [] => 0
  | x :: rest => rest.foldl max x

/-- Loop body of `Block.row_align_center`: the state is the cursor `x`
together with the blocks already repositioned (`y` stays `0` for the
whole loop).  The block is moved so its top-left is `(x, y - dh)` with
`dh = (max_height - h) / 2`, then the cursor advances by `w + gutter`. -/
def rowStep (max_height gutter : ℚ) (st : ℚ × List Element) (b : Element) :
    ℚ × List Element :=
  let y : ℚ := 0
  let w := width b
  let h := height b
  let dh := (max_height - h) / 2
  (st.1 + w + gutter, st.2 ++ [move_to b (st.1, y - dh)])

/-- Source `Block.row_align_center(blocks, gutter)`: compute
`max_height` (0 for an empty input), reposition the blocks left to
right with `rowStep`, and wrap the repositioned blocks in a new
Block. -/
def Block.row_align_center (blocks : List Element) (gutter : ℚ) : Element :=
  let max_height := max_default (blocks.map height)
  Block.init (blocks.foldl (rowStep max_height gutter) (0, [])).2

/-- Loop body of `Block.col_align_right`: the state is the cursor `y`
together with the blocks already repositioned (`x` stays `0`).  The
block is moved so its top-left is `(x + dw, y)` with
`dw = max_width - w`, then the cursor moves down by `h + gutter`. -/
def colStep (max_width gutter : ℚ) (st : ℚ × List Element) (b : Element) :
    ℚ × List Element :=
  let x : ℚ := 0
  let w := width b
  let h := height b
  let dw := max_width - w
  (st.1 - (h + gutter), st.2 ++ [move_to b (x + dw, st.1)])

/-- Source `Block.col_align_right(blocks, gutter)`: compute
`max_width` (0 for an empty input), reposition the blocks top to
bottom with `colStep`, and wrap the repositioned blocks in a new
Block. -/
def Block.col_align_right (blocks : List Element) (gutter : ℚ) : Element :=
  let max_width := max_default (blocks.map width)
  Block.init (blocks.foldl (colStep max_width gutter) (0, [])).2

mutual

/-- The inner helper `add_to_frame` of `Block.framify`: descend into
Blocks and set the parent of every node encountered to the frame
(the self-assignment `block.location = block.location` is a data-level
no-op and has no counterpart here). -/
def add_to_frame (fid : Nat) : Element → Element
  | .node n => .node { n with parent := some fid }
  | .block cs tl br => .block (addChildrenToFrame fid cs) tl br

/-- The `for child in block.children: add_to_frame(child)` loop. -/
def addChildrenToFrame (fid : Nat) : List Element → List Element
  | [] => []
  | c :: cs => add_to_frame fid c :: addChildrenToFrame fid cs

end

/-- Source `Block.framify(self, tree, label)`.  The host call
`tree.nodes.new('NodeFrame')` is modelled by building the frame `Node`
directly, with `fid` the identifier under which the host tree knows the
new frame.  The result is the triple of: the updated Block (its
children replaced by the single frame, its cached `bottom_right` grown
by `(2*padding, 2*padding)`), the reparented former content (the state
of the old children after the `add_to_frame` traversal, which lives on
in the host tree), and the created frame node itself. -/
def Block.framify (g : Element) (fid : Nat) (label : String) :
    Element × Element × Node :=
  let padding : ℚ := 30
  let g1 := move_to g (padding, padding)
  let w := width g1
  let h := height g1
  let frame : Node :=
    { location := (0, 0), label := label, width := w + 2 * padding,
      height := h + 2 * padding, shrink := false, parent := none }
  let reparented := add_to_frame fid g1
  match g1 with
  | .node n => (.node n, reparented, frame)
  | .block _ tl br =>
      (.block [.node frame] tl (br + (2 * padding, 2 * padding)), reparented, frame)

mutual

/-- All shader nodes transitively contained in an element, in traversal
order.  This is the spec-side notion of the Leaves of a Group. -/
def leaves : Element → List Node
  | .node n => [n]
  | .block cs _ _ => leavesOfChildren cs

/-- Leaves of a list of elements, concatenated in order. -/
def leavesOfChildren : List Element → List Node
  | [] => []
  | c :: cs => leaves c ++ leavesOfChildren cs

end

/-- The box (top-left corner, bottom-right corner) of a single node,
computed from its live location and size. -/
def nodeBox (n : Node) : Vec × Vec := (n.location, n.location + (n.width, -n.height))

/-- The box of an element as the dispatch functions report it. -/
def elemBox (e : Element) : Vec × Vec := (top_left e, bottom_right e)

/-- Union of two boxes under the upward-y convention: min of left
edges, max of top edges, max of right edges, min of bottom edges. -/
def boxUnion (a b : Vec × Vec) : Vec × Vec :=
  ((min a.1.1 b.1.1, max a.1.2 b.1.2), (max a.2.1 b.2.1, min a.2.2 b.2.2))

/-- The from-scratch bounding box of a list of nodes: the fold of
`boxUnion` over the node boxes (the componentwise min/max of all node
corners).  The empty list gets the degenerate box at the origin. -/
def leafBox : List Node → Vec × Vec
  | [] => ((0, 0), (0, 0))
  | n :: rest => rest.foldl (fun acc m => boxUnion acc (nodeBox m)) (nodeBox n)

mutual

/-- The bounding-box cache invariant: every Block in the tree with at
least one child has cached corners equal to the fold of `boxUnion` over
the boxes of its children (in order).  A childless Block is
unconstrained: its cache is meaningless until the first `add`
overwrites it. -/
def cacheOk : Element → Bool
  | .node _ => true
  | .block cs tl br =>
      childrenCachesOk cs &&
      (match cs with
       | [] => true
       | c :: rest =>
           decide ((tl, br) = rest.foldl (fun acc x => boxUnion acc (elemBox x)) (elemBox c)))

/-- The cache invariant for each element of a child list. -/
def childrenCachesOk : List Element → Bool
  | [] => true
  | c :: cs => cacheOk c && childrenCachesOk cs

end

mutual

/-- Every Block transitively contained in the element (including the
element itself) has a nonempty child list; in particular the element
then contains at least one shader node. -/
def allGroupsNonempty : Element → Bool
  | .node _ => true
  | .block cs _ _ => !cs.isEmpty && childrenGroupsNonempty cs

/-- The nonemptiness condition for each element of a child list. -/
def childrenGroupsNonempty : List Element → Bool
  | [] => true
  | c :: cs => allGroupsNonempty c && childrenGroupsNonempty cs

end

/-- A single mutating call on a Block: `add(child)` or
`move_by(delta)`. -/
inductive Op where
  | add (child : Element)
  | moveBy (delta : Vec)

/-- Apply one call to a Block. -/
def applyOp (g : Element) : Op → Element
  | .add child => Block.add g child
  | .moveBy delta => move_by g delta

/-- Apply a sequence of calls to a Block, oldest first. -/
def applyOps (g : Element) (ops : List Op) : Element := ops.foldl applyOp g

/-- An operation is good when any element it adds satisfies the cache
invariant and contains no empty sub-Block. -/
def opGood : Op → Bool
  | .add child => cacheOk child && allGroupsNonempty child
  | .moveBy _ => true

/-- Cursor x position of element `i` in `row_align_center`: the sum of
`width + gutter` over the elements before it. -/
def rowX (gutter : ℚ) : List Element → Nat → ℚ
  | _, 0 => 0
  | [], _ + 1 => 0
  | b :: bs, i + 1 => width b + gutter + rowX gutter bs i

/-- Cursor y position of element `i` in `col_align_right`: zero minus
the sum of `height + gutter` over the elements before it. -/
def colY (gutter : ℚ) : List Element → Nat → ℚ
  | _, 0 => 0
  | [], _ + 1 => 0
  | b :: bs, i + 1 => colY gutter bs i - (height b + gutter)

/-! ### Basic translation lemmas for the geometric primitives -/

theorem top_left_move_by (e : Element) (d : Vec) :
    top_left (move_by e d) = top_left e + d := by
  cases e <;> simp [move_by, top_left]

theorem bottom_right_move_by (e : Element) (d : Vec) :
    bottom_right (move_by e d) = bottom_right e + d := by
  cases e with
  | node n => simp [move_by, bottom_right]; ring
  | block cs tl br => simp [move_by, bottom_right]

theorem top_left_move_to (e : Element) (p : Vec) :
    top_left (move_to e p) = p := by
  simp [move_to, top_left_move_by]

theorem bottom_right_move_to (e : Element) (p : Vec) :
    bottom_right (move_to e p) = bottom_right e + (p - top_left e) :=
  bottom_right_move_by e (p - top_left e)

theorem width_move_by (e : Element) (d : Vec) : width (move_by e d) = width e := by
  simp [width, top_left_move_by, bottom_right_move_by]

theorem height_move_by (e : Element) (d : Vec) : height (move_by e d) = height e := by
  simp [height, top_left_move_by, bottom_right_move_by]

theorem width_move_to (e : Element) (p : Vec) : width (move_to e p) = width e :=
  width_move_by e (p - top_left e)

theorem height_move_to (e : Element) (p : Vec) : height (move_to e p) = height e :=
  height_move_by e (p - top_left e)

/-! ### Claims C6, C7, C8, C10 (primitive moves) and C9 (empty row) -/

/-- C6: for every Element `e` (Leaf or Group) and every target point
`p`, after `move_to(e, p)` the value of `top_left(e)` equals `p`
exactly. -/
theorem C6_move_to_sets_top_left (e : Element) (p : Vec) :
    top_left (move_to e p) = p :=
  top_left_move_to e p

/-- C7: for every Element `e` and every delta `d`, calling
`move_by(e, d)` and then `move_by(e, -d)` restores `top_left(e)` and
`bottom_right(e)` to the values they had before the first call. -/
theorem C7_move_by_roundtrip (e : Element) (d : Vec) :
    top_left (move_by (move_by e d) (-d)) = top_left e ∧
    bottom_right (move_by (move_by e d) (-d)) = bottom_right e := by
  constructor <;>
    simp [top_left_move_by, bottom_right_move_by]

/-- C10 (implicit): for every Element `e` (Leaf or Group) and every
delta `d`, `move_by(e, d)` leaves `width(e)` and `height(e)` unchanged,
and consequently `move_to` also preserves width and height. -/
theorem C10_moves_preserve_size (e : Element) (d p : Vec) :
    width (move_by e d) = width e ∧ height (move_by e d) = height e ∧
    width (move_to e p) = width e ∧ height (move_to e p) = height e :=
  ⟨width_move_by e d, height_move_by e d, width_move_to e p, height_move_to e p⟩

/-- C8: for every Element `e`, after `center_at_origin(e)`,
`top_left(e)` equals `(-width(e)/2, height(e)/2)`; and calling
`center_at_origin` a second time immediately after leaves `top_left(e)`
and `bottom_right(e)` unchanged (idempotence). -/
theorem C8_center_at_origin (e : Element) :
    top_left (center_at_origin e) = (-(width e) / 2, height e / 2) ∧
    top_left (center_at_origin (center_at_origin e)) =
      top_left (center_at_origin e) ∧
    bottom_right (center_at_origin (center_at_origin e)) =
      bottom_right (center_at_origin e) := by
  have h1 : top_left (center_at_origin e) = (-(width e) / 2, height e / 2) :=
    top_left_move_to e _
  have h2 : center_at_origin (center_at_origin e)
      = move_by (center_at_origin e)
          (((-(width e) / 2 : ℚ), (height e / 2 : ℚ)) - top_left (center_at_origin e)) := by
    have hw : width (center_at_origin e) = width e := width_move_to e _
    have hh : height (center_at_origin e) = height e := height_move_to e _
    show move_to _ _ = _
    rw [hw, hh, move_to]
  refine ⟨h1, ?_, ?_⟩
  · rw [h2, top_left_move_by, h1]; ring
  · rw [h2, bottom_right_move_by, h1]; simp

/-- C9: `row_align_center` applied to the empty sequence (with any
gutter) returns a Group whose width is 0, whose height is 0, and whose
`top_left` is `(0, 0)`. -/
theorem C9_row_align_center_empty (gutter : ℚ) :
    width (Block.row_align_center [] gutter) = 0 ∧
    height (Block.row_align_center [] gutter) = 0 ∧
    top_left (Block.row_align_center [] gutter) = (0, 0) := by
  norm_num [Block.row_align_center, Block.init, width, height, top_left,
    bottom_right, Prod.ext_iff]

/-! ### Children of a freshly built Block -/

theorem add_block_form (cs : List Element) (tl br : Vec) (e : Element) :
    ∃ tl2 br2, Block.add (.block cs tl br) e = .block (cs ++ [e]) tl2 br2 := by
  simp only [Block.add]
  split <;> exact ⟨_, _, rfl⟩

theorem children_foldl_add (l : List Element) :
    ∀ (cs : List Element) (tl br : Vec),
      children (l.foldl Block.add (.block cs tl br)) = cs ++ l := by
  induction l with
  | nil => intro cs tl br; simp [children]
  | cons e rest ih =>
      intro cs tl br
      rw [List.foldl_cons]
      obtain ⟨tl2, br2, heq⟩ := add_block_form cs tl br e
      rw [heq, ih]
      simp

theorem children_init (l : List Element) : children (Block.init l) = l := by
  rw [Block.init, children_foldl_add]
  simp

/-! ### Positions produced by the alignment loops -/

/-- The list of repositioned blocks produced by the `row_align_center`
loop when the cursor starts at `x`. -/
def rowPlaced (mh gutter : ℚ) : ℚ → List Element → List Element
  | _, [] => []
  | x, b :: bs =>
      move_to b (x, 0 - (mh - height b) / 2) ::
        rowPlaced mh gutter (x + width b + gutter) bs

theorem rowStep_foldl (mh gutter : ℚ) (bs : List Element) :
    ∀ (x : ℚ) (acc : List Element),
      (bs.foldl (rowStep mh gutter) (x, acc)).2 = acc ++ rowPlaced mh gutter x bs := by
  induction bs with
  | nil => intro x acc; simp [rowPlaced]
  | cons b rest ih =>
      intro x acc
      rw [List.foldl_cons]
      show (rest.foldl (rowStep mh gutter)
        (x + width b + gutter, acc ++ [move_to b (x, 0 - (mh - height b) / 2)])).2 = _
      rw [ih, rowPlaced]
      simp

theorem rowPlaced_getElem (mh gutter : ℚ) (bs : List Element) :
    ∀ (x : ℚ) (i : Nat),
      (rowPlaced mh gutter x bs)[i]?.map top_left
        = bs[i]?.map (fun b => ((x + rowX gutter bs i, 0 - (mh - height b) / 2) : Vec)) := by
  induction bs with
  | nil => intro x i; simp [rowPlaced]
  | cons b rest ih =>
      intro x i
      cases i with
      | zero => simp [rowPlaced, rowX, top_left_move_to]
      | succ j =>
          simp only [rowPlaced, List.getElem?_cons_succ]
          rw [ih]
          cases h : rest[j]? with
          | none => simp
          | some c =>
              simp only [Option.map_some', Option.some.injEq, Prod.mk.injEq,
                Nat.add_comm 1 j, rowX]
              exact ⟨by ring, trivial⟩

/-- The list of repositioned blocks produced by the `col_align_right`
loop when the cursor starts at `y`. -/
def colPlaced (mw gutter : ℚ) : ℚ → List Element → List Element
  | _, [] => []
  | y, b :: bs =>
      move_to b (0 + (mw - width b), y) ::
        colPlaced mw gutter (y - (height b + gutter)) bs

theorem colStep_foldl (mw gutter : ℚ) (bs : List Element) :
    ∀ (y : ℚ) (acc : List Element),
      (bs.foldl (colStep mw gutter) (y, acc)).2 = acc ++ colPlaced mw gutter y bs := by
  induction bs with
  | nil => intro y acc; simp [colPlaced]
  | cons b rest ih =>
      intro y acc
      rw [List.foldl_cons]
      show (rest.foldl (colStep mw gutter)
        (y - (height b + gutter), acc ++ [move_to b (0 + (mw - width b), y)])).2 = _
      rw [ih, colPlaced]
      simp

theorem colPlaced_getElem (mw gutter : ℚ) (bs : List Element) :
    ∀ (y : ℚ) (i : Nat),
      (colPlaced mw gutter y bs)[i]?.map top_left
        = bs[i]?.map (fun b => ((mw - width b, y + colY gutter bs i) : Vec)) := by
  induction bs with
  | nil => intro y i; simp [colPlaced]
  | cons b rest ih =>
      intro y i
      cases i with
      | zero => simp [colPlaced, colY, top_left_move_to]
      | succ j =>
          simp only [colPlaced, List.getElem?_cons_succ]
          rw [ih]
          cases h : rest[j]? with
          | none => simp
          | some c =>
              simp only [Option.map_some', Option.some.injEq, Prod.mk.injEq,
                Nat.add_comm 1 j, colY]
              exact ⟨trivial, by ring⟩

theorem children_row_align_center (bs : List Element) (gutter : ℚ) :
    children (Block.row_align_center bs gutter)
      = rowPlaced (max_default (bs.map height)) gutter 0 bs := by
  simp only [Block.row_align_center]
  rw [children_init, rowStep_foldl]
  simp

theorem children_col_align_right (bs : List Element) (gutter : ℚ) :
    children (Block.col_align_right bs gutter)
      = colPlaced (max_default (bs.map width)) gutter 0 bs := by
  simp only [Block.col_align_right]
  rw [children_init, colStep_foldl]
  simp

/-- The three-element example of §8: heights 10, 20, 30 and widths
5, 5, 5 (the initial locations are irrelevant and chosen arbitrarily). -/
def rowExample : List Element :=
  [.node { location := (1, 2), width := 5, height := 10 },
   .node { location := (3, 4), width := 5, height := 20 },
   .node { location := (5, 6), width := 5, height := 30 }]

/-- C3: for every sequence of elements and gutter, `row_align_center`
moves element `i` so its top-left is `(cursor_x, cursor_y - dh)` with
`cursor_y = 0`, `dh = (max_height - height(element_i)) / 2` and
`cursor_x` the sum of `width + gutter` over the previous elements; and
for the §8 example (heights 10, 20, 30, widths 5, 5, 5, gutter 0) the
top-lefts land at x-offsets 0, 5, 10 with dh values 10, 5, 0, and the
returned Group has height 30 and width 15. -/
theorem C3_row_align_center_positions :
    (∀ (bs : List Element) (gutter : ℚ) (i : Nat),
      (children (Block.row_align_center bs gutter))[i]?.map top_left
        = bs[i]?.map (fun b =>
            ((rowX gutter bs i,
              0 - (max_default (bs.map height) - height b) / 2) : Vec))) ∧
    (children (Block.row_align_center rowExample 0)).map top_left
      = [(0, -10), (5, -5), (10, 0)] ∧
    height (Block.row_align_center rowExample 0) = 30 ∧
    width (Block.row_align_center rowExample 0) = 15 := by
  refine ⟨?_, ?_, ?_, ?_⟩
  · intro bs gutter i
    rw [children_row_align_center, rowPlaced_getElem]
    cases h : bs[i]? with
    | none => simp
    | some b => simp
  · rw [children_row_align_center]
    norm_num [rowExample, rowPlaced, max_default, move_to, move_by, top_left,
      bottom_right, height, width, max_def, min_def, Prod.mk.injEq]
  · norm_num [Block.row_align_center, rowExample, rowStep, Block.init, Block.add,
      max_default, move_to, move_by, top_left, bottom_right, height, width,
      max_def, min_def, children]
  · norm_num [Block.row_align_center, rowExample, rowStep, Block.init, Block.add,
      max_default, move_to, move_by, top_left, bottom_right, height, width,
      max_def, min_def, children]

/-- The two-element example of §8: widths 10 and 20, gutter 5 (heights
7 and 9, initial locations arbitrary; `height1 = 7` so the second
y-offset is `-(7 + 5) = -12`). -/
def colExample : List Element :=
  [.node { location := (1, 2), width := 10, height := 7 },
   .node { location := (3, 4), width := 20, height := 9 }]

/-- C4: for every sequence of elements and gutter, `col_align_right`
moves element `i` so its top-left is `(cursor_x + dw, cursor_y)` with
`cursor_x = 0`, `dw = max_width - width(element_i)` and `cursor_y`
zero minus the sum of `height + gutter` over the previous elements; and
for the §8 example (widths 10 and 20, gutter 5) the top-lefts land at
x-offsets 10 and 0 and y-offsets 0 and `-(height1 + 5)`, and the
returned Group has width 20. -/
theorem C4_col_align_right_positions :
    (∀ (bs : List Element) (gutter : ℚ) (i : Nat),
      (children (Block.col_align_right bs gutter))[i]?.map top_left
        = bs[i]?.map (fun b =>
            ((max_default (bs.map width) - width b, colY gutter bs i) : Vec))) ∧
    (children (Block.col_align_right colExample 5)).map top_left
      = [(10, 0), (0, -12)] ∧
    width (Block.col_align_right colExample 5) = 20 := by
  refine ⟨?_, ?_, ?_⟩
  · intro bs gutter i
    rw [children_col_align_right, colPlaced_getElem]
    cases h : bs[i]? with
    | none => simp
    | some b => simp
  · rw [children_col_align_right]
    norm_num [colExample, colPlaced, max_default, move_to, move_by, top_left,
      bottom_right, height, width, max_def, min_def, Prod.mk.injEq]
  · norm_num [Block.col_align_right, colExample, colStep, Block.init, Block.add,
      max_default, move_to, move_by, top_left, bottom_right, height, width,
      max_def, min_def, children]

/-! ### framify: geometry of the updated Block, and the reparenting -/

/-- C1 (records the actual behaviour of the code): for any Block,
after `framify` the cached width is the pre-call width plus
`2*padding = 60`, but the cached height is the pre-call height MINUS
60, because `bottom_right` is grown by `(+60, +60)` although the y axis
increases upward; at the concrete failing input (a single 10 by 10 node
at the origin, pre-call width = height = 10) the post-call width is 70
and the post-call height is -50, not 70 as the claim states. -/
theorem C1_framify_size_change :
    (∀ (cs : List Element) (tl br : Vec) (fid : Nat) (label : String),
      width (Block.framify (.block cs tl br) fid label).1
          = width (.block cs tl br) + 2 * 30 ∧
      height (Block.framify (.block cs tl br) fid label).1
          = height (.block cs tl br) - 2 * 30) ∧
    (width (Block.init [.node { location := (0, 0), width := 10, height := 10 }]) = 10 ∧
     height (Block.init [.node { location := (0, 0), width := 10, height := 10 }]) = 10 ∧
     width (Block.framify
        (Block.init [.node { location := (0, 0), width := 10, height := 10 }]) 0 "Frame").1
          = 70 ∧
     height (Block.framify
        (Block.init [.node { location := (0, 0), width := 10, height := 10 }]) 0 "Frame").1
          = -50) := by
  constructor
  · intro cs tl br fid label
    constructor <;>
      · simp only [Block.framify, move_to, move_by]
        simp [width, height, top_left, bottom_right]
        ring
  · norm_num [Block.framify, Block.init, Block.add, move_to, move_by,
      moveChildrenBy, width, height, top_left, bottom_right, children]

mutual

theorem leaves_move_by (e : Element) (d : Vec) :
    leaves (move_by e d)
      = (leaves e).map (fun n => { n with location := n.location + d }) := by
  match e with
  | .node n => simp [move_by, leaves]
  | .block cs tl br =>
      simp only [move_by, leaves]
      exact leavesOfChildren_moveChildrenBy cs d

theorem leavesOfChildren_moveChildrenBy (cs : List Element) (d : Vec) :
    leavesOfChildren (moveChildrenBy cs d)
      = (leavesOfChildren cs).map (fun n => { n with location := n.location + d }) := by
  match cs with
  | [] => simp [moveChildrenBy, leavesOfChildren]
  | c :: rest =>
      simp only [moveChildrenBy, leavesOfChildren, List.map_append]
      rw [leaves_move_by c d, leavesOfChildren_moveChildrenBy rest d]

end

mutual

theorem leaves_add_to_frame (fid : Nat) (e : Element) :
    leaves (add_to_frame fid e)
      = (leaves e).map (fun n => { n with parent := some fid }) := by
  match e with
  | .node n => simp [add_to_frame, leaves]
  | .block cs tl br =>
      simp only [add_to_frame, leaves]
      exact leavesOfChildren_addChildrenToFrame fid cs

theorem leavesOfChildren_addChildrenToFrame (fid : Nat) (cs : List Element) :
    leavesOfChildren (addChildrenToFrame fid cs)
      = (leavesOfChildren cs).map (fun n => { n with parent := some fid }) := by
  match cs with
  | [] => simp [addChildrenToFrame, leavesOfChildren]
  | c :: rest =>
      simp only [addChildrenToFrame, leavesOfChildren, List.map_append]
      rw [leaves_add_to_frame fid c, leavesOfChildren_addChildrenToFrame fid rest]

end

/-- C5: after `framify(group, host_tree, label)`, the children sequence
of the group consists of exactly one element, the newly created frame;
and every Leaf transitively contained in the group before the call has
its parent set to that frame (its location having been shifted by the
initial `move_to(group, (30, 30))`, i.e. by `(30, 30) - top_left`). -/
theorem C5_framify_structure (cs : List Element) (tl br : Vec) (fid : Nat)
    (label : String) :
    children (Block.framify (.block cs tl br) fid label).1
        = [Element.node (Block.framify (.block cs tl br) fid label).2.2] ∧
    leaves (Block.framify (.block cs tl br) fid label).2.1
        = (leaves (.block cs tl br)).map (fun n =>
            { n with location := n.location + (((30 : ℚ), (30 : ℚ)) - tl),
                     parent := some fid }) ∧
    ∀ n ∈ leaves (Block.framify (.block cs tl br) fid label).2.1,
      n.parent = some fid := by
  have h2 : leaves (Block.framify (.block cs tl br) fid label).2.1
      = (leaves (.block cs tl br)).map (fun n =>
          { n with location := n.location + (((30 : ℚ), (30 : ℚ)) - tl),
                   parent := some fid }) := by
    show leaves (add_to_frame fid
      (move_by (.block cs tl br) (((30 : ℚ), (30 : ℚ)) - tl))) = _
    rw [leaves_add_to_frame, leaves_move_by, List.map_map]
    rfl
  refine ⟨rfl, h2, ?_⟩
  intro n hn
  rw [h2] at hn
  obtain ⟨m, _, rfl⟩ := List.mem_map.mp hn
  rfl

/-! ### Box algebra for the cache invariant -/

theorem boxUnion_assoc (a b c : Vec × Vec) :
    boxUnion (boxUnion a b) c = boxUnion a (boxUnion b c) := by
  simp [boxUnion, min_assoc, max_assoc]

theorem foldBox_boxUnion (ms : List Node) :
    ∀ (a b : Vec × Vec),
      ms.foldl (fun acc m => boxUnion acc (nodeBox m)) (boxUnion a b)
        = boxUnion a (ms.foldl (fun acc m => boxUnion acc (nodeBox m)) b) := by
  induction ms with
  | nil => intro a b; simp
  | cons m rest ih =>
      intro a b
      rw [List.foldl_cons, List.foldl_cons, boxUnion_assoc, ih]

theorem leafBox_append (l1 l2 : List Node) (h1 : l1 ≠ []) (h2 : l2 ≠ []) :
    leafBox (l1 ++ l2) = boxUnion (leafBox l1) (leafBox l2) := by
  match l1, l2 with
  | n :: ns, m :: ms =>
      show leafBox (n :: (ns ++ m :: ms)) = _
      rw [leafBox, leafBox, leafBox, List.foldl_append, List.foldl_cons]
      exact foldBox_boxUnion ms _ (nodeBox m)

theorem elemBox_move_by (e : Element) (d : Vec) :
    elemBox (move_by e d) = ((elemBox e).1 + d, (elemBox e).2 + d) := by
  simp [elemBox, top_left_move_by, bottom_right_move_by]

theorem boxUnion_shift (a b : Vec × Vec) (d : Vec) :
    boxUnion (a.1 + d, a.2 + d) (b.1 + d, b.2 + d)
      = ((boxUnion a b).1 + d, (boxUnion a b).2 + d) := by
  obtain ⟨⟨ax, ay⟩, ⟨bx, by'⟩⟩ := a
  obtain ⟨⟨cx, cy⟩, ⟨ex, ey⟩⟩ := b
  obtain ⟨dx, dy⟩ := d
  simp [boxUnion, Prod.mk_add_mk, min_add_add_right, max_add_add_right]

theorem foldBox_moveChildrenBy (cs : List Element) (d : Vec) :
    ∀ b : Vec × Vec,
      (moveChildrenBy cs d).foldl (fun acc x => boxUnion acc (elemBox x)) (b.1 + d, b.2 + d)
        = ((cs.foldl (fun acc x => boxUnion acc (elemBox x)) b).1 + d,
           (cs.foldl (fun acc x => boxUnion acc (elemBox x)) b).2 + d) := by
  induction cs with
  | nil => intro b; simp [moveChildrenBy]
  | cons c rest ih =>
      intro b
      rw [moveChildrenBy, List.foldl_cons, List.foldl_cons, elemBox_move_by,
        boxUnion_shift, ih]

mutual

theorem cacheOk_move_by (e : Element) (d : Vec) :
    cacheOk (move_by e d) = cacheOk e := by
  match e with
  | .node n => simp [move_by, cacheOk]
  | .block cs tl br =>
      match cs with
      | [] => simp [move_by, moveChildrenBy, cacheOk, childrenCachesOk]
      | c :: rest =>
          simp only [move_by, moveChildrenBy, cacheOk, childrenCachesOk]
          rw [cacheOk_move_by c d, childrenCachesOk_moveChildrenBy rest d,
            elemBox_move_by, foldBox_moveChildrenBy rest d (elemBox c)]
          congr 1
          rw [decide_eq_decide]
          simp [Prod.ext_iff]

theorem childrenCachesOk_moveChildrenBy (cs : List Element) (d : Vec) :
    childrenCachesOk (moveChildrenBy cs d) = childrenCachesOk cs := by
  match cs with
  | [] => simp [moveChildrenBy, childrenCachesOk]
  | c :: rest =>
      simp only [moveChildrenBy, childrenCachesOk]
      rw [cacheOk_move_by c d, childrenCachesOk_moveChildrenBy rest d]

end

mutual

theorem allGroupsNonempty_move_by (e : Element) (d : Vec) :
    allGroupsNonempty (move_by e d) = allGroupsNonempty e := by
  match e with
  | .node n => simp [move_by, allGroupsNonempty]
  | .block cs tl br =>
      match cs with
      | [] => simp [move_by, moveChildrenBy, allGroupsNonempty, childrenGroupsNonempty]
      | c :: rest =>
          simp only [move_by, moveChildrenBy, allGroupsNonempty,
            childrenGroupsNonempty, List.isEmpty_cons]
          rw [allGroupsNonempty_move_by c d, childrenGroupsNonempty_moveChildrenBy rest d]

theorem childrenGroupsNonempty_moveChildrenBy (cs : List Element) (d : Vec) :
    childrenGroupsNonempty (moveChildrenBy cs d) = childrenGroupsNonempty cs := by
  match cs with
  | [] => simp [moveChildrenBy, childrenGroupsNonempty]
  | c :: rest =>
      simp only [moveChildrenBy, childrenGroupsNonempty]
      rw [allGroupsNonempty_move_by c d, childrenGroupsNonempty_moveChildrenBy rest d]

end

theorem childrenCachesOk_append (l1 l2 : List Element) :
    childrenCachesOk (l1 ++ l2) = (childrenCachesOk l1 && childrenCachesOk l2) := by
  induction l1 with
  | nil => simp [childrenCachesOk]
  | cons c rest ih => simp [childrenCachesOk, ih, Bool.and_assoc]

theorem childrenGroupsNonempty_append (l1 l2 : List Element) :
    childrenGroupsNonempty (l1 ++ l2)
      = (childrenGroupsNonempty l1 && childrenGroupsNonempty l2) := by
  induction l1 with
  | nil => simp [childrenGroupsNonempty]
  | cons c rest ih => simp [childrenGroupsNonempty, ih, Bool.and_assoc]

theorem leavesOfChildren_append (l1 l2 : List Element) :
    leavesOfChildren (l1 ++ l2) = leavesOfChildren l1 ++ leavesOfChildren l2 := by
  induction l1 with
  | nil => simp [leavesOfChildren]
  | cons c rest ih => simp [leavesOfChildren, ih]

theorem cacheOk_add (cs : List Element) (tl br : Vec) (e : Element)
    (hg : cacheOk (.block cs tl br) = true) (he : cacheOk e = true) :
    cacheOk (Block.add (.block cs tl br) e) = true := by
  match cs with
  | [] =>
      simp [Block.add, cacheOk, childrenCachesOk, he, elemBox]
  | c :: rest =>
      simp only [cacheOk, Bool.and_eq_true, decide_eq_true_eq, childrenCachesOk] at hg
      obtain ⟨⟨h1c, h1rest⟩, hbox⟩ := hg
      simp only [Block.add, List.cons_append, List.length_cons, List.length_append,
        List.length_nil]
      rw [if_neg (by omega)]
      simp only [cacheOk, Bool.and_eq_true, decide_eq_true_eq]
      constructor
      · simp [childrenCachesOk, childrenCachesOk_append, h1c, h1rest, he]
      · rw [List.foldl_append, ← hbox]
        simp [boxUnion, elemBox]

mutual

theorem elemBox_eq_leafBox (e : Element) (h1 : cacheOk e = true)
    (h2 : allGroupsNonempty e = true) :
    leaves e ≠ [] ∧ elemBox e = leafBox (leaves e) := by
  match e with
  | .node n =>
      constructor
      · simp [leaves]
      · simp [elemBox, leafBox, leaves, nodeBox, top_left, bottom_right]
  | .block cs tl br =>
      match cs with
      | [] => simp [allGroupsNonempty, List.isEmpty_nil] at h2
      | c :: rest =>
          simp only [cacheOk, Bool.and_eq_true, decide_eq_true_eq,
            childrenCachesOk] at h1
          obtain ⟨⟨h1c, h1rest⟩, hbox⟩ := h1
          simp only [allGroupsNonempty, childrenGroupsNonempty, Bool.and_eq_true,
            List.isEmpty_cons, Bool.not_false, true_and] at h2
          obtain ⟨h2c, h2rest⟩ := h2
          obtain ⟨hneC, hboxC⟩ := elemBox_eq_leafBox c h1c h2c
          constructor
          · simp only [leaves, leavesOfChildren]
            intro hcontra
            exact hneC (List.append_eq_nil.mp hcontra).1
          · show (tl, br) = _
            rw [hbox, hboxC,
              foldBox_eq_leafBox rest h1rest h2rest (leaves c) hneC]
            simp only [leaves, leavesOfChildren]

theorem foldBox_eq_leafBox (cs : List Element) (h1 : childrenCachesOk cs = true)
    (h2 : childrenGroupsNonempty cs = true) (L : List Node) (hL : L ≠ []) :
    cs.foldl (fun acc x => boxUnion acc (elemBox x)) (leafBox L)
      = leafBox (L ++ leavesOfChildren cs) := by
  match cs with
  | [] => simp [leavesOfChildren]
  | c :: rest =>
      simp only [childrenCachesOk, Bool.and_eq_true] at h1
      obtain ⟨h1c, h1rest⟩ := h1
      simp only [childrenGroupsNonempty, Bool.and_eq_true] at h2
      obtain ⟨h2c, h2rest⟩ := h2
      obtain ⟨hneC, hboxC⟩ := elemBox_eq_leafBox c h1c h2c
      simp only [List.foldl_cons]
      rw [hboxC, ← leafBox_append L (leaves c) hL hneC,
        foldBox_eq_leafBox rest h1rest h2rest (L ++ leaves c) (by
          intro hcontra
          exact hL (List.append_eq_nil.mp hcontra).1),
        List.append_assoc]
      simp only [leavesOfChildren]

end

/-- Invariant of the distinguished Block that the calls are applied to:
it is a Block, every cache inside it is correct, and no child contains
an empty sub-Block (the child list of the Block itself may be empty). -/
def RootInv (g : Element) : Prop :=
  isBlock g = true ∧ cacheOk g = true ∧
    childrenGroupsNonempty (children g) = true

theorem RootInv_applyOp (g : Element) (op : Op) (hg : RootInv g)
    (hop : opGood op = true) : RootInv (applyOp g op) := by
  obtain ⟨hb, hc, hn⟩ := hg
  cases g with
  | node n => simp [isBlock] at hb
  | block cs tl br =>
      simp only [children] at hn
      cases op with
      | add e =>
          simp only [opGood, Bool.and_eq_true] at hop
          obtain ⟨he1, he2⟩ := hop
          obtain ⟨tl2, br2, heq⟩ := add_block_form cs tl br e
          show RootInv (Block.add (.block cs tl br) e)
          refine ⟨?_, ?_, ?_⟩
          · rw [heq]; rfl
          · exact cacheOk_add cs tl br e hc he1
          · rw [heq]
            show childrenGroupsNonempty (cs ++ [e]) = true
            rw [childrenGroupsNonempty_append]
            simp [hn, childrenGroupsNonempty, he2]
      | moveBy d =>
          show RootInv (move_by (.block cs tl br) d)
          refine ⟨?_, ?_, ?_⟩
          · simp [move_by, isBlock]
          · rw [cacheOk_move_by]; exact hc
          · simp only [move_by, children]
            rw [childrenGroupsNonempty_moveChildrenBy]
            exact hn

theorem RootInv_foldl_add (l : List Element) :
    ∀ g : Element, RootInv g → childrenCachesOk l = true →
      childrenGroupsNonempty l = true → RootInv (l.foldl Block.add g) := by
  induction l with
  | nil => intro g hg _ _; exact hg
  | cons e rest ih =>
      intro g hg h1 h2
      simp only [childrenCachesOk, Bool.and_eq_true] at h1
      obtain ⟨he1, hrest1⟩ := h1
      simp only [childrenGroupsNonempty, Bool.and_eq_true] at h2
      obtain ⟨he2, hrest2⟩ := h2
      rw [List.foldl_cons]
      exact ih _ (RootInv_applyOp g (.add e) hg (by simp [opGood, he1, he2]))
        hrest1 hrest2

theorem RootInv_init (l : List Element) (h1 : childrenCachesOk l = true)
    (h2 : childrenGroupsNonempty l = true) : RootInv (Block.init l) :=
  RootInv_foldl_add l _
    ⟨rfl, by simp [cacheOk, childrenCachesOk], by simp [children, childrenGroupsNonempty]⟩
    h1 h2

theorem RootInv_applyOps (ops : List Op) :
    ∀ g : Element, RootInv g → ops.all opGood = true →
      RootInv (applyOps g ops) := by
  induction ops with
  | nil => intro g hg _; exact hg
  | cons op rest ih =>
      intro g hg hall
      simp only [List.all_cons, Bool.and_eq_true] at hall
      show RootInv (rest.foldl applyOp (applyOp g op))
      exact ih _ (RootInv_applyOp g op hg hall.1) hall.2

theorem RootInv_box (g : Element) (hg : RootInv g) (hne : leaves g ≠ []) :
    top_left g = (leafBox (leaves g)).1 ∧
    bottom_right g = (leafBox (leaves g)).2 := by
  obtain ⟨hb, hc, hn⟩ := hg
  cases g with
  | node n => simp [isBlock] at hb
  | block cs tl br =>
      cases cs with
      | nil => simp [leaves, leavesOfChildren] at hne
      | cons c rest =>
          simp only [cacheOk, Bool.and_eq_true, decide_eq_true_eq,
            childrenCachesOk] at hc
          obtain ⟨⟨hcc, hcr⟩, hbox⟩ := hc
          simp only [children, childrenGroupsNonempty, Bool.and_eq_true] at hn
          obtain ⟨hnc, hnr⟩ := hn
          obtain ⟨hneC, hboxC⟩ := elemBox_eq_leafBox c hcc hnc
          have hmain : (tl, br) = leafBox (leaves (Element.block (c :: rest) tl br)) := by
            rw [hbox, hboxC, foldBox_eq_leafBox rest hcr hnr (leaves c) hneC]
            simp only [leaves, leavesOfChildren]
          constructor
          · show tl = _
            rw [← hmain]
          · show br = _
            rw [← hmain]

/-- C2 counterexample: the claim as stated fails when an empty Block is
among the children.  `Block(leaf, Block())` with a leaf at `(10, -10)`
has exactly that leaf as its recursively contained Leaves, so the
recomputed bounding box has top-left `(10, -10)`; but the cached
`top_left` is `(0, 0)` because the empty child contributed its default
`(0, 0)` cache to the min/max union. -/
theorem C2_counterexample :
    leaves (Block.init
        [.node { location := (10, -10), width := 1, height := 1 },
         .block [] (0, 0) (0, 0)])
      = [{ location := (10, -10), width := 1, height := 1 }] ∧
    (leafBox (leaves (Block.init
        [.node { location := (10, -10), width := 1, height := 1 },
         .block [] (0, 0) (0, 0)]))).1 = (10, -10) ∧
    top_left (Block.init
        [.node { location := (10, -10), width := 1, height := 1 },
         .block [] (0, 0) (0, 0)]) = (0, 0) ∧
    top_left (Block.init
        [.node { location := (10, -10), width := 1, height := 1 },
         .block [] (0, 0) (0, 0)])
      ≠ (leafBox (leaves (Block.init
          [.node { location := (10, -10), width := 1, height := 1 },
           .block [] (0, 0) (0, 0)]))).1 := by
  refine ⟨?_, ?_, ?_, ?_⟩ <;>
    norm_num [Block.init, Block.add, top_left, bottom_right, leaves,
      leavesOfChildren, leafBox, nodeBox, children, min_def, max_def,
      Prod.ext_iff]

/-- C2 (amended): for every Group built by the Block constructor from
initial children whose caches are correct and that contain no empty
sub-Block, and after any sequence of `add` and `move_by` calls (each
added element again cache-correct and without empty sub-Blocks), as
long as the Group contains at least one Leaf, the cached `top_left` and
`bottom_right` equal the bounding box recomputed from scratch over all
recursively contained Leaves (the `boxUnion` fold of the leaf boxes:
min of x and max of y for `top_left`, max of x and min of y for
`bottom_right`).  The unamended claim fails on empty sub-Groups, whose
`(0, 0)` cache enters the union although they contain no Leaf — see
the counterexample. -/
theorem C2_cache_equals_recomputed_bbox (l : List Element) (ops : List Op)
    (h1 : childrenCachesOk l = true) (h2 : childrenGroupsNonempty l = true)
    (h3 : ops.all opGood = true)
    (h4 : leaves (applyOps (Block.init l) ops) ≠ []) :
    top_left (applyOps (Block.init l) ops)
        = (leafBox (leaves (applyOps (Block.init l) ops))).1 ∧
    bottom_right (applyOps (Block.init l) ops)
        = (leafBox (leaves (applyOps (Block.init l) ops))).2 :=
  RootInv_box _ (RootInv_applyOps ops _ (RootInv_init l h1 h2) h3) h4

/-- Concrete initial children for the C2 witness. -/
def wInit : List Element := [.node { location := (1, 2), width := 3, height := 4 }]

/-- Concrete call sequence for the C2 witness: one `add` of a second
node, then one `move_by`. -/
def wOps : List Op :=
  [.add (.node { location := (-5, 6), width := 7, height := 8 }),
   .moveBy (10, -10)]

/-- Witness for the amended C2 at a concrete input: a Block built from
one node, with one further `add` and one `move_by`. -/
theorem C2_cache_equals_recomputed_bbox_witness :
    (childrenCachesOk wInit = true ∧ childrenGroupsNonempty wInit = true ∧
     wOps.all opGood = true ∧ leaves (applyOps (Block.init wInit) wOps) ≠ []) ∧
    (top_left (applyOps (Block.init wInit) wOps)
        = (leafBox (leaves (applyOps (Block.init wInit) wOps))).1 ∧
     bottom_right (applyOps (Block.init wInit) wOps)
        = (leafBox (leaves (applyOps (Block.init wInit) wOps))).2) := by
  have h1 : childrenCachesOk wInit = true := by
    simp [wInit, childrenCachesOk, cacheOk]
  have h2 : childrenGroupsNonempty wInit = true := by
    simp [wInit, childrenGroupsNonempty, allGroupsNonempty]
  have h3 : wOps.all opGood = true := by
    simp [wOps, opGood, cacheOk, allGroupsNonempty]
  have h4 : leaves (applyOps (Block.init wInit) wOps) ≠ [] := by
    simp [wInit, wOps, applyOps, applyOp, Block.init, Block.add, move_by,
      moveChildrenBy, leaves, leavesOfChildren]
  exact ⟨⟨h1, h2, h3, h4⟩, C2_cache_equals_recomputed_bbox wInit wOps h1 h2 h3 h4⟩
